import Mathlib

/-!
Shallow embedding of `src/index.ts` from the lightning-talk repository on
JavaScript array operators (map, filter, reduce) and on four data
transformation tasks, each given in an imperative and a declarative form.

JavaScript arrays are modelled as Lean lists.  A string-keyed JavaScript
object (`Record<string, T>`) is modelled as an association list with unique
keys in insertion order: property assignment `obj[k] = v` and the spread
expression `{...obj, [k]: v}` both replace the value in place when the key is
already present and append a fresh entry otherwise, which is exactly what
`recSet` does, and property read `obj[k]` is `recLookup`.  JavaScript string
upper-casing is modelled by `jsToUpperCase`.
-/

set_option autoImplicit false

namespace LightningTalk

universe u v

variable {α : Type u} {β : Type v}

/-- JavaScript `Array.prototype.map`: iterate over the array, apply `f` to
each element and collect the results in a new array, keeping order. -/
def jsMap (l : List α) (f : α → β) : List β :=
  match l with
  | [] => []
  | x :: rest => f x :: jsMap rest f

/-- JavaScript `Array.prototype.filter`: a new array with the elements for
which the predicate returned true, relative order preserved. -/
def jsFilter (l : List α) (p : α → Bool) : List α :=
  match l with
  | [] => []
  | x :: rest => if p x then x :: jsFilter rest p else jsFilter rest p

/-- JavaScript `Array.prototype.reduce` with an explicit `initialValue`
(second argument): left fold of the combining function over the array. -/
def jsReduce (l : List α) (f : β → α → β) (z : β) : β :=
  match l with
  | [] => z
  | x :: rest => jsReduce rest f (f z x)

/-- JavaScript `Array.prototype.reduce` without an `initialValue`: the first
element of the array is taken as the first `previousValue` and combining
starts from the second element.  On an empty array the call throws a
`TypeError`, modelled here as `none`. -/
def jsReduceNoInit (l : List α) (f : α → α → α) : Option α :=
  match l with
  | [] => none
  | x :: rest => some (jsReduce rest f x)

/-- JavaScript `String.prototype.toUpperCase`, modelled as upper-casing every
character of the string. -/
def jsToUpperCase (s : String) : String :=
  ⟨s.data.map Char.toUpper⟩

/-- JavaScript `s.startsWith(p)`: the characters of `p` are a prefix of the
characters of `s`. -/
def jsStartsWith (s p : String) : Bool :=
  p.data.isPrefixOf s.data

/-- Property read `obj[k]` on a string-keyed JavaScript object:
`none` models `undefined`. -/
def recLookup (m : List (String × α)) (k : String) : Option α :=
  match m with
  | [] => none
  | (k₁, v) :: rest => if k₁ = k then some v else recLookup rest k

/-- Property write `obj[k] = v`, and equally the spread expression
`{...obj, [k]: v}`: when the key is already present its value is replaced in
place (the key keeps its position), otherwise a fresh entry is appended. -/
def recSet (m : List (String × α)) (k : String) (v : α) : List (String × α) :=
  match m with
  | [] => [(k, v)]
  | (k₁, v₁) :: rest =>
      if k₁ = k then (k₁, v) :: rest else (k₁, v₁) :: recSet rest k v

/-- A `{code, discount}` record, as consumed by `groupData`. -/
structure DiscountRecord where
  code : String
  discount : String
  deriving DecidableEq

/-- A `{code, order}` record, as consumed by `count`. -/
structure OrderRecord where
  code : String
  order : String
  deriving DecidableEq

namespace transformData

/-- The imperative loop: `for (const element of array)` pushing
`element.toUpperCase()` onto the mutable `result` array. -/
def loop (array : List String) (result : List String) : List String :=
  match array with
  | [] => result
  | element :: rest => loop rest (result ++ [jsToUpperCase element])

/-- `transformData.imperative` from `src/index.ts` (lines 93-101). -/
def imperative (array : List String) : List String :=
  loop array []

/-- `transformData.declarative` from `src/index.ts` (lines 103-105). -/
def declarative (array : List String) : List String :=
  jsMap array (fun element => jsToUpperCase element)

end transformData

namespace transformAndFilterData

/-- The imperative loop: `for (const element of array)` skipping elements
that do not start with `"x"` (via `continue`) and pushing
`element.toUpperCase()` for the rest. -/
def loop (array : List String) (result : List String) : List String :=
  match array with
  | [] => result
  | element :: rest =>
      if jsStartsWith element "x" then loop rest (result ++ [jsToUpperCase element])
      else loop rest result

/-- `transformAndFilterData.imperative` from `src/index.ts` (lines 111-123). -/
def imperative (array : List String) : List String :=
  loop array []

/-- `transformAndFilterData.declarative` from `src/index.ts` (lines 125-129):
filter by the prefix predicate, then map to upper case. -/
def declarative (array : List String) : List String :=
  jsMap (jsFilter array (fun element => jsStartsWith element "x"))
    (fun element => jsToUpperCase element)

end transformAndFilterData

namespace groupData

/-- The shared update expression
`result[discount]?.concat(code) ?? [code]`: append the code to the existing
sequence for the key, or start a fresh single-element sequence. -/
def entry (grouped : List (String × List String)) (r : DiscountRecord) :
    List String :=
  match recLookup grouped r.discount with
  | some codes => codes ++ [r.code]
  | none => [r.code]

/-- The imperative loop: `for (const { code, discount } of discounts)`
assigning `result[discount] = result[discount]?.concat(code) ?? [code]`. -/
def loop (discounts : List DiscountRecord)
    (result : List (String × List String)) : List (String × List String) :=
  match discounts with
  | [] => result
  | r :: rest => loop rest (recSet result r.discount (entry result r))

/-- `groupData.imperative` from `src/index.ts` (lines 143-153). -/
def imperative (discounts : List DiscountRecord) :
    List (String × List String) :=
  loop discounts []

/-- `groupData.declarative` from `src/index.ts` (lines 155-165): a reduce
whose step builds `{...grouped, [discount]: grouped[discount]?.concat(code)
?? [code]}`. -/
def declarative (discounts : List DiscountRecord) :
    List (String × List String) :=
  jsReduce discounts (fun grouped r => recSet grouped r.discount (entry grouped r)) []

end groupData

namespace count

/-- The imperative loop: `for (const { code } of orders)` assigning
`result[code] = (result[code] ?? 0) + 1`. -/
def loop (orders : List OrderRecord) (result : List (String × Nat)) :
    List (String × Nat) :=
  match orders with
  | [] => result
  | r :: rest =>
      loop rest (recSet result r.code ((recLookup result r.code).getD 0 + 1))

/-- `count.imperative` from `src/index.ts` (lines 179-189). -/
def imperative (orders : List OrderRecord) : List (String × Nat) :=
  loop orders []

/-- `count.declarative` from `src/index.ts` (lines 191-201): a reduce whose
step builds `{...counts, [code]: (counts[code] ?? 0) + 1}`. -/
def declarative (orders : List OrderRecord) : List (String × Nat) :=
  jsReduce orders
    (fun counts r => recSet counts r.code ((recLookup counts r.code).getD 0 + 1))
    []

end count

/-- The codes of the input records carrying discount `k`, in input order:
the sequence the spec says must sit under key `k` in the grouped output. -/
def groupCodes (discounts : List DiscountRecord) (k : String) : List String :=
  (discounts.filter fun r => r.discount == k).map fun r => r.code

/-- The sum of all counts in a string-to-number record. -/
def sumVals (m : List (String × Nat)) : Nat :=
  match m with
  | [] => 0
  | (_, v) :: rest => v + sumVals rest


/-- How a fold step sequence extends the sequence stored under one key: an
existing sequence grows by the new codes, a missing key is created exactly
when at least one code arrives for it. -/
def extendEntry (prev : Option (List String)) (codes : List String) :
    Option (List String) :=
  match prev with
  | some xs => some (xs ++ codes)
  | none => if codes = [] then none else some codes

/-! ### Basic lemmas about the embedded operators -/

theorem jsMap_eq_map (l : List α) (f : α → β) : jsMap l f = l.map f := by
  induction l with
  | nil => rfl
  | cons x rest ih => simp [jsMap, ih]

theorem jsFilter_eq_filter (l : List α) (p : α → Bool) :
    jsFilter l p = l.filter p := by
  induction l with
  | nil => rfl
  | cons x rest ih => by_cases h : p x <;> simp [jsFilter, h, ih]

theorem recLookup_recSet (m : List (String × α)) (k k₁ : String) (v : α) :
    recLookup (recSet m k v) k₁ = if k = k₁ then some v else recLookup m k₁ := by
  induction m with
  | nil => by_cases h : k = k₁ <;> simp [recSet, recLookup, h]
  | cons p rest ih =>
      obtain ⟨k₂, v₂⟩ := p
      by_cases h₂ : k₂ = k
      · subst h₂
        by_cases h : k₂ = k₁ <;> simp [recSet, recLookup, h]
      · by_cases h : k₂ = k₁
        · subst h
          have hk : ¬k = k₂ := fun hh => h₂ hh.symm
          simp [recSet, recLookup, h₂, hk]
        · simp [recSet, recLookup, h, h₂, ih]

theorem groupCodes_nil (k : String) : groupCodes [] k = [] := rfl

theorem groupCodes_cons (r : DiscountRecord) (rest : List DiscountRecord)
    (k : String) :
    groupCodes (r :: rest) k =
      if r.discount = k then r.code :: groupCodes rest k
      else groupCodes rest k := by
  by_cases h : r.discount = k <;> simp [groupCodes, h]

theorem extendEntry_some (xs codes : List String) :
    extendEntry (some xs) codes = some (xs ++ codes) := rfl

/-- The key invariant of the grouping fold: folding the group step over the
remaining records extends whatever sequence the accumulator already stores
under each key by exactly the codes of the remaining records with that
discount, in input order. -/
theorem group_reduce_lookup (discounts : List DiscountRecord)
    (m : List (String × List String)) (k : String) :
    recLookup
      (jsReduce discounts
        (fun grouped r => recSet grouped r.discount (groupData.entry grouped r)) m)
      k =
    extendEntry (recLookup m k) (groupCodes discounts k) := by
  induction discounts generalizing m with
  | nil =>
      cases h : recLookup m k <;> simp [jsReduce, groupCodes_nil, extendEntry, h]
  | cons r rest ih =>
      simp only [jsReduce]
      rw [ih, recLookup_recSet, groupCodes_cons]
      by_cases hd : r.discount = k
      · subst hd
        simp only [if_pos rfl]
        cases h : recLookup m r.discount <;>
          simp [groupData.entry, extendEntry, h]
      · have hk : ¬r.discount = k := hd
        simp [hk]

theorem sumVals_recSet_succ (m : List (String × Nat)) (k : String) :
    sumVals (recSet m k ((recLookup m k).getD 0 + 1)) = sumVals m + 1 := by
  induction m with
  | nil => simp [recSet, recLookup, sumVals]
  | cons p rest ih =>
      obtain ⟨k₂, v₂⟩ := p
      by_cases h : k₂ = k
      · simp [recSet, recLookup, sumVals, h]
        omega
      · simp [recSet, recLookup, sumVals, h, ih]
        omega

/-- The key invariant of the counting fold: each processed record adds
exactly one to the total of all counts in the accumulator. -/
theorem count_reduce_sum (orders : List OrderRecord)
    (m : List (String × Nat)) :
    sumVals
      (jsReduce orders
        (fun counts r => recSet counts r.code ((recLookup counts r.code).getD 0 + 1))
        m) =
    sumVals m + orders.length := by
  induction orders generalizing m with
  | nil => simp [jsReduce]
  | cons r rest ih =>
      simp only [jsReduce, List.length_cons]
      rw [ih, sumVals_recSet_succ]
      omega

/-- The counting fold reads nothing but the `code` field of each record, so
two record sequences with the same codes fold to the same accumulator. -/
theorem count_reduce_depends_only_on_codes (l₁ l₂ : List OrderRecord)
    (m : List (String × Nat))
    (h : l₁.map OrderRecord.code = l₂.map OrderRecord.code) :
    jsReduce l₁
      (fun counts r => recSet counts r.code ((recLookup counts r.code).getD 0 + 1))
      m =
    jsReduce l₂
      (fun counts r => recSet counts r.code ((recLookup counts r.code).getD 0 + 1))
      m := by
  induction l₁ generalizing l₂ m with
  | nil =>
      cases l₂ with
      | nil => rfl
      | cons r₂ rest₂ => simp at h
  | cons r rest ih =>
      cases l₂ with
      | nil => simp at h
      | cons r₂ rest₂ =>
          simp only [List.map_cons, List.cons.injEq] at h
          obtain ⟨hc, hrest⟩ := h
          simp only [jsReduce, hc]
          exact ih rest₂ _ hrest

/-! ### Loop-fold correspondence for the imperative forms -/

theorem transformData_loop_unfolds (array result : List String) :
    transformData.loop array result =
      result ++ jsMap array (fun element => jsToUpperCase element) := by
  induction array generalizing result with
  | nil => simp [transformData.loop, jsMap]
  | cons x rest ih => simp [transformData.loop, jsMap, ih]

theorem transformAndFilterData_loop_unfolds (array result : List String) :
    transformAndFilterData.loop array result =
      result ++ transformAndFilterData.declarative array := by
  induction array generalizing result with
  | nil => simp [transformAndFilterData.loop, transformAndFilterData.declarative,
      jsFilter, jsMap]
  | cons x rest ih =>
      by_cases h : jsStartsWith x "x" <;>
        simp [transformAndFilterData.loop, transformAndFilterData.declarative,
          jsFilter, jsMap, h, ih]

theorem groupData_loop_unfolds (discounts : List DiscountRecord)
    (result : List (String × List String)) :
    groupData.loop discounts result =
      jsReduce discounts
        (fun grouped r => recSet grouped r.discount (groupData.entry grouped r))
        result := by
  induction discounts generalizing result with
  | nil => rfl
  | cons r rest ih => simp [groupData.loop, jsReduce, ih]

theorem count_loop_unfolds (orders : List OrderRecord)
    (result : List (String × Nat)) :
    count.loop orders result =
      jsReduce orders
        (fun counts r => recSet counts r.code ((recLookup counts r.code).getD 0 + 1))
        result := by
  induction orders generalizing result with
  | nil => rfl
  | cons r rest ih => simp [count.loop, jsReduce, ih]

theorem filter_map_eq_filterMap (S : List String) :
    (S.filter fun element => jsStartsWith element "x").map jsToUpperCase =
      S.filterMap fun element =>
        if jsStartsWith element "x" then some (jsToUpperCase element) else none := by
  induction S with
  | nil => rfl
  | cons x rest ih => by_cases h : jsStartsWith x "x" <;> simp [h, ih]

/-! ### The claims -/

/-- C1: for every input sequence of `{code, discount}` records, the
declarative group-by-key aggregation returns a mapping in which the
value-sequence under any key `k` is exactly the sequence of codes of the
input records whose discount is `k`, in first-seen-then-append input order
(and the key is absent when no record carries it): no code is dropped,
deduplicated, or placed under any other key. -/
theorem groupData_declarative_groups_every_code
    (discounts : List DiscountRecord) (k : String) :
    recLookup (groupData.declarative discounts) k =
      if groupCodes discounts k = [] then none
      else some (groupCodes discounts k) := by
  have h := group_reduce_lookup discounts [] k
  simpa [groupData.declarative, recLookup, extendEntry] using h

/-- C2: for every input sequence of `{order, code}` records, the sum of all
counts in the mapping returned by the declarative count-by-key aggregation
equals the length of the input sequence. -/
theorem count_declarative_sum_eq_length (orders : List OrderRecord) :
    sumVals (count.declarative orders) = orders.length := by
  have h := count_reduce_sum orders []
  simpa [count.declarative, sumVals] using h

/-- C3: the declarative uppercase-transform returns a sequence of the same
length as the input whose element at every index is the upper-casing of the
input element at that index, preserving order. -/
theorem transformData_declarative_pointwise (S : List String) :
    (transformData.declarative S).length = S.length ∧
    ∀ i : Nat, (transformData.declarative S)[i]? = Option.map jsToUpperCase S[i]? := by
  constructor
  · simp [transformData.declarative, jsMap_eq_map]
  · intro i
    simp [transformData.declarative, jsMap_eq_map]

/-- C4: the declarative filter-then-transform returns exactly the upper-cased
forms of the input elements whose original form starts with `"x"`, in their
original relative order, and its length is at most the input length. -/
theorem transformAndFilterData_declarative_spec (S : List String) :
    transformAndFilterData.declarative S =
      (S.filterMap fun element =>
        if jsStartsWith element "x" then some (jsToUpperCase element) else none) ∧
    (transformAndFilterData.declarative S).length ≤ S.length := by
  have he : transformAndFilterData.declarative S =
      (S.filter fun element => jsStartsWith element "x").map jsToUpperCase := by
    simp [transformAndFilterData.declarative, jsMap_eq_map, jsFilter_eq_filter]
  refine ⟨?_, ?_⟩
  · rw [he, filter_map_eq_filterMap]
  · rw [he]
    simpa using List.length_filter_le _ S

/-- C5: for each of the four tasks (uppercasing, filter-then-transform,
grouping, counting) the imperative and the declarative implementation return
equal results on every input. -/
theorem imperative_eq_declarative :
    (∀ array : List String,
      transformData.imperative array = transformData.declarative array) ∧
    (∀ array : List String,
      transformAndFilterData.imperative array = transformAndFilterData.declarative array) ∧
    (∀ discounts : List DiscountRecord,
      groupData.imperative discounts = groupData.declarative discounts) ∧
    (∀ orders : List OrderRecord,
      count.imperative orders = count.declarative orders) := by
  refine ⟨fun array => ?_, fun array => ?_, fun discounts => ?_, fun orders => ?_⟩
  · rw [transformData.imperative, transformData_loop_unfolds]
    simp [transformData.declarative]
  · rw [transformAndFilterData.imperative, transformAndFilterData_loop_unfolds]
    simp
  · rw [groupData.imperative, groupData_loop_unfolds, groupData.declarative]
  · rw [count.imperative, count_loop_unfolds, count.declarative]

/-- The literal input of concrete scenario 4 in the spec (the example in the
comment above `groupData` in `src/index.ts`). -/
def exampleDiscounts : List DiscountRecord :=
  [⟨"A", "1"⟩, ⟨"B", "2"⟩, ⟨"C", "1"⟩, ⟨"E", "2"⟩, ⟨"F", "1"⟩]

/-- C6 counterexample: on the literal scenario-4 input the grouping does not
return the mapping claimed by the spec, `{1: [A, C, E, F], 2: [B, E]}`: the
sequence under key `1` is not `[A, C, E, F]`. -/
theorem groupData_example_claim_refuted :
    ¬(recLookup (groupData.declarative exampleDiscounts) "1" =
        some ["A", "C", "E", "F"] ∧
      recLookup (groupData.declarative exampleDiscounts) "2" =
        some ["B", "E"]) := by
  decide

/-- C6 amended: on the literal scenario-4 input both grouping implementations
return exactly the mapping `{1: [A, C, F], 2: [B, E]}`. -/
theorem groupData_example_actual_output :
    groupData.imperative exampleDiscounts =
      [("1", ["A", "C", "F"]), ("2", ["B", "E"])] ∧
    groupData.declarative exampleDiscounts =
      [("1", ["A", "C", "F"]), ("2", ["B", "E"])] := by
  decide

/-- C7: the count-by-key aggregation, in both implementations, does not
depend on the `order` fields: two input sequences whose records agree
pairwise on the `code` field produce the same mapping. -/
theorem count_independent_of_order_field (l₁ l₂ : List OrderRecord)
    (h : l₁.map OrderRecord.code = l₂.map OrderRecord.code) :
    count.imperative l₁ = count.imperative l₂ ∧
    count.declarative l₁ = count.declarative l₂ := by
  have hd := count_reduce_depends_only_on_codes l₁ l₂ [] h
  constructor
  · rw [count.imperative, count_loop_unfolds, count.imperative, count_loop_unfolds, hd]
  · rw [count.declarative, count.declarative, hd]

/-- C7 witness: two concrete one-record inputs with the same code but
different order fields are counted identically. -/
theorem count_independent_of_order_field_witness :
    ([⟨"A", "ASDF-1"⟩] : List OrderRecord).map OrderRecord.code =
      ([⟨"A", "ASDF-2"⟩] : List OrderRecord).map OrderRecord.code ∧
    count.imperative [⟨"A", "ASDF-1"⟩] = count.imperative [⟨"A", "ASDF-2"⟩] ∧
    count.declarative [⟨"A", "ASDF-1"⟩] = count.declarative [⟨"A", "ASDF-2"⟩] :=
  ⟨by decide,
   (count_independent_of_order_field [⟨"A", "ASDF-1"⟩] [⟨"A", "ASDF-2"⟩]
      (by decide)).1,
   (count_independent_of_order_field [⟨"A", "ASDF-1"⟩] [⟨"A", "ASDF-2"⟩]
      (by decide)).2⟩

/-- C9: left-folding `[1, 2, 3, 4]` with addition and no initial value (the
first element becomes the first `previousValue`, combining starts from the
second element) yields `10`. -/
theorem reduce_without_initial_example :
    jsReduceNoInit [1, 2, 3, 4]
      (fun previousValue currentValue => previousValue + currentValue) =
      some (10 : Nat) := by
  decide

/-- C10: left-folding the string sequence `[1, 2, 3, 4]` (as strings) with
the `+` combining function seeded with the empty string concatenates, giving
the string `1234` rather than the numeric `10` narrated in the comment. -/
theorem reduce_with_initial_example :
    jsReduce ["1", "2", "3", "4"]
      (fun previousValue currentValue => previousValue ++ currentValue) "" =
      "1234" := by
  decide

end LightningTalk
